import Mathlib

/-!
Shallow embedding of the code-planner repository: the identifier generator
(src/utils/idGenerator.ts), the plan generator with its AI-response parser and
deterministic fallback (src/ai/GeminiPlanner.ts), the file-backed plan store
(src/storage/FileStorage.ts), and the step-completion path of the progress
command (src/commands/progress.ts).  JavaScript runtime values that can flow
out of the generic JSON decode are modelled by the inductive `Json` (with an
explicit `undefined` for JavaScript undefined); JavaScript numbers that can be NaN
are modelled by `JsNum`; operations that can throw are modelled in `Except`.
Timestamps (Date.now / new Date) are threaded as an explicit `now : Nat`
parameter, in milliseconds.
-/

/-- JavaScript value as produced by the generic JSON decode, plus `undefined` for
the result of reading an absent property.  Numbers are modelled on the integer
fragment (no claim in this development depends on fractional JSON numbers). -/
inductive Json where
  | undefined : Json
  | null : Json
  | bool : Bool → Json
  | num : Int → Json
  | str : String → Json
  | arr : List Json → Json
  | obj : List (String × Json) → Json

/-- JavaScript number that may be NaN: `Math.round((c / t) * 100)` yields NaN
when `t = 0`, so the stored percentage field must be able to hold NaN. -/
inductive JsNum where
  | nan : JsNum
  | int : Int → JsNum
deriving DecidableEq, Repr

/-- Truthiness of a JavaScript value, as used by the `||` default operator:
undefined, null, false, 0 and the empty string are falsy. -/
def jsTruthy : Json → Bool
  | .undefined => false
  | .null => false
  | .bool b => b
  | .num n => !(n = 0)
  | .str s => !(s = "")
  | .arr _ => true
  | .obj _ => true

/-- JavaScript `a || b` over decoded values: `b` when `a` is falsy, else `a`. -/
def jsOr (a b : Json) : Json := if jsTruthy a then a else b

/-- Property read `v.k`: throws (TypeError) on undefined and null, looks the
key up on an object (undefined when absent), and yields undefined on every
other primitive or array value, as JavaScript does. -/
def jsGet : Json → String → Except Unit Json
  | .undefined, _ => .error ()
  | .null, _ => .error ()
  | .obj fields, k =>
      match fields.lookup k with
      | some v => .ok v
      | none => .ok .undefined
  | _, _ => .ok .undefined

/-- Optional-chained read `v.k1?.k2` as in `aiResponse.overview?.projectType`:
read `k1`, short-circuit to undefined when that is undefined or null, else
read `k2` on it. -/
def jsGetChain (v : Json) (k1 k2 : String) : Except Unit Json := do
  let inner ← jsGet v k1
  match inner with
  | .undefined => .ok .undefined
  | .null => .ok .undefined
  | w => jsGet w k2

/-- Whitespace class of the JavaScript regular-expression escape `\s`: space,
tab, line feed, vertical tab, form feed, carriage return, and the Unicode
space separators it includes. -/
def isJsWs (c : Char) : Bool :=
  c = ' ' || c = '\t' || c = '\n' || c = '\x0b' || c = '\x0c' || c = '\r' ||
  c = ' ' || c = ' ' || (0x2000 ≤ c.val && c.val ≤ 0x200A) ||
  c = ' ' || c = ' ' || c = ' ' || c = ' ' ||
  c = '　' || c = '﻿'

/-- Character class kept by the first replace of `generatePlanId`, the
complement of `[^a-z0-9\s-]`: lowercase ASCII letters, digits, `\s`
whitespace, and the hyphen. -/
def isSlugKeep (c : Char) : Bool :=
  ('a' ≤ c && c ≤ 'z') || ('0' ≤ c && c ≤ '9') || isJsWs c || c = '-'

/-- Characters allowed in a finished plan id: `[a-z0-9-]`. -/
def isSlugChar (c : Char) : Bool :=
  ('a' ≤ c && c ≤ 'z') || ('0' ≤ c && c ≤ '9') || c = '-'

/-- Second replace of `generatePlanId`: `replace(/\s+/g, '-')` collapses each
maximal run of whitespace to a single hyphen.  The flag records whether the
previous character belonged to a whitespace run already replaced. -/
def collapseWs : Bool → List Char → List Char
  | _, [] => []
  | prevWs, c :: rest =>
      if isJsWs c then
        if prevWs then collapseWs true rest
        else '-' :: collapseWs true rest
      else c :: collapseWs false rest

/-- Decimal digits of a natural number, most significant first (accumulator
form), modelling how a JavaScript number is rendered in a template literal.
The fuel argument only drives structural recursion; any fuel at least the
number of digits (in particular `n` itself for positive `n`) is enough. -/
def natDigitsAux : Nat → Nat → List Char → List Char
  | 0, _, acc => acc
  | f + 1, n, acc =>
      if n = 0 then acc
      else natDigitsAux f (n / 10) (Char.ofNat (48 + n % 10) :: acc)

/-- Decimal rendering of a natural number as a character list. -/
def natDigits (n : Nat) : List Char :=
  if n = 0 then ['0'] else natDigitsAux n n []

/-- Embedding of `generatePlanId` (src/utils/idGenerator.ts): lowercase the
title, strip every character outside `[a-z0-9\s-]`, collapse whitespace runs
to single hyphens, truncate to 30 characters, then append a hyphen and the
current time in milliseconds (`Date.now()`, threaded as `now`).  Lowercasing
is modelled per character with `Char.toLower`; no claim depends on non-ASCII
case mapping because every non-`[a-z0-9\s-]` character is stripped next. -/
def generatePlanId (title : String) (now : Nat) : String :=
  String.mk
    (((collapseWs false ((title.data.map Char.toLower).filter isSlugKeep)).take 30)
      ++ '-' :: natDigits now)

/-- Embedding of `generateStepId` (src/utils/idGenerator.ts). -/
def generateStepId (stepNumber : Nat) : String :=
  String.mk ('s' :: 't' :: 'e' :: 'p' :: '-' :: natDigits stepNumber)

/-- JavaScript `toLowerCase`, modelled per character. -/
def lowerStr (s : String) : String := String.mk (s.data.map Char.toLower)

/-- Plan status enumeration from src/types/index.ts. -/
inductive Status where
  | planning : Status
  | inProgress : Status
  | completed : Status
  | paused : Status
deriving DecidableEq, Repr

/-- Overview block of a ProjectPlan.  The fields are raw decoded values
(`Json`) because the AI mapping assigns `aiResponse.overview?.x || default`
without checking the runtime type. -/
structure Overview where
  projectType : Json
  estimatedTime : Json
  complexity : Json

/-- File-structure block of a ProjectPlan; raw decoded values for the same
reason as `Overview`. -/
structure FileStructure where
  directories : Json
  files : Json

/-- Dependency block of a ProjectPlan; raw decoded values. -/
structure Dependencies where
  npm : Json
  apis : Json
  services : Json

/-- Cached progress triple.  `percentage` is a `JsNum` because
`FileStorage.updatePlan` computes `Math.round((c / t) * 100)`, which is NaN
when `t = 0`. -/
structure Progress where
  completedSteps : Nat
  totalSteps : Nat
  percentage : JsNum
deriving DecidableEq, Repr

/-- Embedding of PlanStep (src/types/index.ts).  `title`, `description`,
`files` and `dependencies` hold raw decoded values: the AI mapping copies
`step.title` and `step.description` unchecked (possibly undefined) and
defaults `step.files || []` and `step.dependencies || []` only on falsiness. -/
structure PlanStep where
  id : String
  title : Json
  description : Json
  files : Json
  dependencies : Json
  completed : Bool
  order : Nat

/-- Embedding of ProjectPlan (src/types/index.ts).  `title` is a `String`:
on the AI path a truthy non-string `aiResponse.title` makes
`generatePlanId(aiResponse.title || task)` throw before the plan is built, so
every constructed plan carries a genuine string title.  `description` is raw
(`Json`) because `aiResponse.description || ...` is assigned unchecked.
`createdAt`/`updatedAt` are milliseconds since epoch. -/
structure ProjectPlan where
  id : String
  title : String
  description : Json
  createdAt : Nat
  updatedAt : Nat
  status : Status
  overview : Overview
  fileStructure : FileStructure
  dependencies : Dependencies
  steps : List PlanStep
  progress : Progress

/-- Embedding of PlannerConfig (src/types/index.ts). -/
structure PlannerConfig where
  geminiApiKey : Option String
  defaultOutputDir : String
  maxPlans : Nat
deriving DecidableEq, Repr

/-- Embedding of CreatePlanOptions (src/types/index.ts). -/
structure CreatePlanOptions where
  task : String
  projectType : Option String
  framework : Option String
  interactive : Option Bool
deriving DecidableEq, Repr

/-- JSON insignificant whitespace (space, tab, line feed, carriage return). -/
def jsonSkipWs (cs : List Char) : List Char :=
  cs.dropWhile (fun c => c = ' ' || c = '\t' || c = '\n' || c = '\r')

/-- Value of a hexadecimal digit, for `\u` escapes. -/
def hexVal (c : Char) : Option Nat :=
  if '0' ≤ c && c ≤ '9' then some (c.toNat - 48)
  else if 'a' ≤ c && c ≤ 'f' then some (c.toNat - 87)
  else if 'A' ≤ c && c ≤ 'F' then some (c.toNat - 55)
  else none

/-- JSON string body after the opening quote: collect characters until the
closing quote, decoding the escape sequences and rejecting raw control
characters, returning the string and the remaining input. -/
def pString : List Char → List Char → Option (String × List Char)
  | [], _ => none
  | '\"' :: rest, acc => some (String.mk acc.reverse, rest)
  | '\\' :: rest, acc =>
      match rest with
      | [] => none
      | e :: rest2 =>
        if e = '\"' then pString rest2 ('\"' :: acc)
        else if e = '\\' then pString rest2 ('\\' :: acc)
        else if e = '/' then pString rest2 ('/' :: acc)
        else if e = 'b' then pString rest2 ('\x08' :: acc)
        else if e = 'f' then pString rest2 ('\x0c' :: acc)
        else if e = 'n' then pString rest2 ('\n' :: acc)
        else if e = 'r' then pString rest2 ('\r' :: acc)
        else if e = 't' then pString rest2 ('\t' :: acc)
        else if e = 'u' then
          match rest2 with
          | a :: b :: c :: d :: rest3 =>
            match hexVal a, hexVal b, hexVal c, hexVal d with
            | some ha, some hb, some hc, some hd =>
                pString rest3 (Char.ofNat (((ha * 16 + hb) * 16 + hc) * 16 + hd) :: acc)
            | _, _, _, _ => none
          | _ => none
        else none
  | c :: rest, acc => if c.val < 32 then none else pString rest (c :: acc)

/-- JSON number on the integer fragment: optional minus sign and a digit run
with no redundant leading zero.  Fractional and exponent forms are outside
this development (no claim depends on them); an input using them fails to
decode here where JSON.parse would succeed. -/
def pNum (cs : List Char) : Option (Json × List Char) :=
  let (neg, cs1) :=
    match cs with
    | '-' :: t => (true, t)
    | _ => (false, cs)
  let ds := cs1.takeWhile (fun c => c.isDigit)
  let rest := cs1.dropWhile (fun c => c.isDigit)
  if ds.isEmpty then none
  else if 1 < ds.length && ds.head? = some '0' then none
  else
    let v : Nat := ds.foldl (fun a c => a * 10 + (c.toNat - 48)) 0
    some (.num (if neg then -(v : Int) else (v : Int)), rest)

mutual

/-- JSON value parser (fuel-indexed recursive descent): skips whitespace and
dispatches on the first character.  An empty array or object is closed
immediately; otherwise the element list is parsed by `pArrRest`/`pObjRest`. -/
def pVal : Nat → List Char → Option (Json × List Char)
  | 0, _ => none
  | fuel + 1, cs =>
    match jsonSkipWs cs with
    | 'n' :: 'u' :: 'l' :: 'l' :: rest => some (.null, rest)
    | 't' :: 'r' :: 'u' :: 'e' :: rest => some (.bool true, rest)
    | 'f' :: 'a' :: 'l' :: 's' :: 'e' :: rest => some (.bool false, rest)
    | '\"' :: rest => (pString rest []).map (fun p => (.str p.1, p.2))
    | '[' :: rest =>
      match jsonSkipWs rest with
      | ']' :: r2 => some (.arr [], r2)
      | other => (pArrRest fuel other).map (fun p => (.arr p.1, p.2))
    | '\x7b' :: rest =>
      match jsonSkipWs rest with
      | '\x7d' :: r2 => some (.obj [], r2)
      | other => (pObjRest fuel other).map (fun p => (.obj p.1, p.2))
    | other => pNum other

/-- One array value followed by a comma and more values or a close bracket. -/
def pArrRest : Nat → List Char → Option (List Json × List Char)
  | 0, _ => none
  | fuel + 1, cs =>
    match pVal fuel cs with
    | none => none
    | some (v, r) =>
      match jsonSkipWs r with
      | ',' :: r2 =>
        match pArrRest fuel r2 with
        | none => none
        | some (vs, r3) => some (v :: vs, r3)
      | ']' :: r2 => some ([v], r2)
      | _ => none

/-- One `key : value` member followed by a comma and more members or a close
brace. -/
def pObjRest : Nat → List Char → Option (List (String × Json) × List Char)
  | 0, _ => none
  | fuel + 1, cs =>
    match jsonSkipWs cs with
    | '\"' :: r =>
      match pString r [] with
      | none => none
      | some (k, r1) =>
        match jsonSkipWs r1 with
        | ':' :: r2 =>
          match pVal fuel r2 with
          | none => none
          | some (v, r3) =>
            match jsonSkipWs r3 with
            | ',' :: r4 =>
              match pObjRest fuel r4 with
              | none => none
              | some (ms, r5) => some ((k, v) :: ms, r5)
            | '\x7d' :: r4 => some ([(k, v)], r4)
            | _ => none
        | _ => none
    | _ => none

end

/-- Embedding of `JSON.parse` on the grammar above: parse one value and
require only whitespace to remain. -/
def jsonDecode (s : String) : Option Json :=
  match pVal (2 * s.length + 2) s.data with
  | none => none
  | some (v, rest) => if (jsonSkipWs rest).isEmpty then some v else none

/-- Embedding of the extraction `text.match(/\x7b[\s\S]*\x7d/)` in
`parseAIResponse`: the regular expression is greedy, so the match runs from
the first opening brace of the text to the last closing brace of the text,
and exists exactly when some closing brace follows the first opening brace. -/
def extractJsonRegion (cs : List Char) : Option (List Char) :=
  match (cs.dropWhile (fun c => !(c = '\x7b'))).reverse.dropWhile (fun c => !(c = '\x7d')) with
  | [] => none
  | r => some r.reverse

/-- String-level wrapper of `extractJsonRegion`. -/
def extractJson (s : String) : Option String :=
  (extractJsonRegion s.data).map String.mk

/-- Scanner for `specFirstBalanced`: consume characters keeping a brace
depth, returning the consumed region once depth returns to zero. -/
def firstBalancedAux : List Char → Nat → List Char → Option (List Char)
  | [], _, _ => none
  | c :: rest, depth, acc =>
    if c = '\x7b' then firstBalancedAux rest (depth + 1) (c :: acc)
    else if c = '\x7d' then
      if depth = 1 then some (c :: acc).reverse
      else if depth = 0 then none
      else firstBalancedAux rest (depth - 1) (c :: acc)
    else firstBalancedAux rest depth (c :: acc)

/-- Specification-side extraction, written from the spec words "extract the
first balanced brace region from the raw text", for comparison with the
source's `extractJson`. -/
def specFirstBalanced (s : String) : Option String :=
  match s.data.dropWhile (fun c => !(c = '\x7b')) with
  | [] => none
  | t => (firstBalancedAux t 0 []).map String.mk

/-- JavaScript view of an optional string option field: absent is undefined. -/
def optStr : Option String → Json
  | none => .undefined
  | some s => .str s

/-- JavaScript `option || defaultString` for an optional string field: the
default is used when the field is absent or the empty string (falsy). -/
def strOrDefault (o : Option String) (d : String) : String :=
  match o with
  | none => d
  | some s => if s = "" then d else s

/-- Embedding of the step-array mapping in `parseAIResponse`
(src/ai/GeminiPlanner.ts lines 96-104): each decoded step element is read
with plain property accesses (throwing on a null element), `files` and
`dependencies` default to the empty array on falsiness, `completed` is set to
false, and `id`/`order` are regenerated from the element's position. -/
def convertSteps : List Json → Nat → Except Unit (List PlanStep)
  | [], _ => .ok []
  | e :: rest, i => do
    let t ← jsGet e "title"
    let d ← jsGet e "description"
    let f ← jsGet e "files"
    let dep ← jsGet e "dependencies"
    let tail ← convertSteps rest (i + 1)
    .ok ({ id := generateStepId (i + 1), title := t, description := d,
           files := jsOr f (.arr []), dependencies := jsOr dep (.arr []),
           completed := false, order := i + 1 } :: tail)

/-- Embedding of `getDefaultDependencies` (src/ai/GeminiPlanner.ts lines
237-258): `express` always, plus framework packages keyed off the
lowercased framework when one is given (the empty string is falsy). -/
def getDefaultDependencies (framework : Option String) : List String :=
  match framework with
  | none => ["express"]
  | some f =>
    if f = "" then ["express"]
    else if lowerStr f = "react" then ["express", "react", "react-dom"]
    else if lowerStr f = "vue" then ["express", "vue"]
    else if lowerStr f = "angular" then ["express", "@angular/core"]
    else if lowerStr f = "next" then ["express", "next", "react"]
    else ["express"]

/-- Embedding of `getDefaultSteps` (src/ai/GeminiPlanner.ts lines 181-235):
three common steps; when the project type is "fullstack", a Backend Setup
step is spliced in at index 1 (reusing id `step-2` and order 2) and a
Frontend Integration step is pushed at the end, giving five steps. -/
def getDefaultSteps (projectType : String) : List PlanStep :=
  let commonSteps : List PlanStep :=
    [ { id := generateStepId 1, title := .str "Project Setup",
        description := .str "Initialize project structure and install dependencies",
        files := .arr [.str "package.json", .str "README.md"],
        dependencies := .arr [.str "npm init", .str "dependency installation"],
        completed := false, order := 1 },
      { id := generateStepId 2, title := .str "Core Implementation",
        description := .str "Build the main functionality",
        files := .arr [.str "src/index.js", .str "src/main.js"],
        dependencies := .arr [],
        completed := false, order := 2 },
      { id := generateStepId 3, title := .str "Testing & Documentation",
        description := .str "Add tests and update documentation",
        files := .arr [.str "tests/", .str "README.md"],
        dependencies := .arr [.str "testing framework"],
        completed := false, order := 3 } ]
  if projectType = "fullstack" then
    (commonSteps.take 1 ++
      [ { id := generateStepId 2, title := .str "Backend Setup",
          description := .str "Set up server and database connections",
          files := .arr [.str "server/index.js", .str "server/models/"],
          dependencies := .arr [.str "express", .str "database driver"],
          completed := false, order := 2 } ] ++
      commonSteps.drop 1) ++
    [ { id := generateStepId 4, title := .str "Frontend Integration",
        description := .str "Connect frontend to backend APIs",
        files := .arr [.str "src/services/", .str "src/components/"],
        dependencies := .arr [.str "axios", .str "frontend framework"],
        completed := false, order := 4 } ]
  else commonSteps

/-- Embedding of `createFallbackPlan` (src/ai/GeminiPlanner.ts lines
142-179). -/
def createFallbackPlan (task : String) (opts : CreatePlanOptions) (now : Nat) : ProjectPlan :=
  let steps := getDefaultSteps (strOrDefault opts.projectType "fullstack")
  { id := generatePlanId task now, title := task,
    description := .str ("Development plan for: " ++ task),
    createdAt := now, updatedAt := now, status := .planning,
    overview := { projectType := .str (strOrDefault opts.projectType "fullstack"),
                  estimatedTime := .str "TBD", complexity := .str "medium" },
    fileStructure := { directories := .arr [.str "src/", .str "src/components/", .str "src/utils/"],
                       files := .arr [.str "package.json", .str "README.md", .str "src/index.js"] },
    dependencies := { npm := .arr ((getDefaultDependencies opts.framework).map .str),
                      apis := .arr [], services := .arr [] },
    steps := steps,
    progress := { completedSteps := 0, totalSteps := steps.length, percentage := .int 0 } }

/-- Embedding of the try block of `parseAIResponse` (src/ai/GeminiPlanner.ts
lines 82-135) in source evaluation order: extract the greedy brace region,
decode it, read `title` (throws on a null/undefined response value), compute
the plan id from `aiResponse.title || task` (throws when that value is a
truthy non-string, since `generatePlanId` calls `toLowerCase` on it), map the
`steps` array (throws when `steps` is missing or not an array), then build
the plan with `||` defaults for every remaining field. -/
def parseAITry (text task : String) (opts : CreatePlanOptions) (now : Nat) :
    Except Unit ProjectPlan :=
  match extractJson text with
  | none => .error ()
  | some region =>
    match jsonDecode region with
    | none => .error ()
    | some ai => do
      let tJson ← jsGet ai "title"
      match jsOr tJson (.str task) with
      | .str titleStr => do
        let planId := generatePlanId titleStr now
        let stepsJson ← jsGet ai "steps"
        match stepsJson with
        | .arr xs => do
          let steps ← convertSteps xs 0
          let dJson ← jsGet ai "description"
          let ovT ← jsGetChain ai "overview" "projectType"
          let ovE ← jsGetChain ai "overview" "estimatedTime"
          let ovC ← jsGetChain ai "overview" "complexity"
          let fsD ← jsGetChain ai "fileStructure" "directories"
          let fsF ← jsGetChain ai "fileStructure" "files"
          let dN ← jsGetChain ai "dependencies" "npm"
          let dA ← jsGetChain ai "dependencies" "apis"
          let dS ← jsGetChain ai "dependencies" "services"
          .ok { id := planId, title := titleStr,
                description := jsOr dJson (.str ("Development plan for: " ++ task)),
                createdAt := now, updatedAt := now, status := .planning,
                overview := { projectType := jsOr ovT (jsOr (optStr opts.projectType) (.str "fullstack")),
                              estimatedTime := jsOr ovE (.str "TBD"),
                              complexity := jsOr ovC (.str "medium") },
                fileStructure := { directories := jsOr fsD (.arr []),
                                   files := jsOr fsF (.arr []) },
                dependencies := { npm := jsOr dN (.arr []),
                                  apis := jsOr dA (.arr []),
                                  services := jsOr dS (.arr []) },
                steps := steps,
                progress := { completedSteps := 0, totalSteps := steps.length,
                              percentage := .int 0 } }
        | _ => .error ()
      | _ => .error ()

/-- Embedding of `parseAIResponse` including its catch clause: any failure in
the try block falls back to `createFallbackPlan`. -/
def parseAIResponse (text task : String) (opts : CreatePlanOptions) (now : Nat) : ProjectPlan :=
  match parseAITry text task opts now with
  | .ok p => p
  | .error _ => createFallbackPlan task opts now

/-- Embedding of `GeminiPlanner.generatePlan` (src/ai/GeminiPlanner.ts lines
14-31).  The external AI call is represented by its outcome: `none` when the
call throws (caught, falling back), `some text` when it returns response
text, which is then parsed by `parseAIResponse`. -/
def generatePlan (aiText : Option String) (task : String) (opts : CreatePlanOptions)
    (now : Nat) : ProjectPlan :=
  match aiText with
  | none => createFallbackPlan task opts now
  | some text => parseAIResponse text task opts now

/-- Embedding of `createBasicPlan` (src/commands/create.ts lines 105-169),
the no-AI fallback of the create command: three fixed steps, the second
referencing the task text, independent of the project type. -/
def createBasicPlan (task : String) (opts : CreatePlanOptions) (now : Nat) : ProjectPlan :=
  let basicSteps : List PlanStep :=
    [ { id := generateStepId 1, title := .str "Project Planning & Setup",
        description := .str "Plan the project structure and initialize the development environment",
        files := .arr [.str "README.md", .str "package.json"],
        dependencies := .arr [], completed := false, order := 1 },
      { id := generateStepId 2, title := .str "Core Implementation",
        description := .str ("Implement the main functionality for: " ++ task),
        files := .arr [.str "src/index.js"],
        dependencies := .arr [], completed := false, order := 2 },
      { id := generateStepId 3, title := .str "Testing & Refinement",
        description := .str "Add tests and refine the implementation",
        files := .arr [.str "tests/", .str "src/"],
        dependencies := .arr [], completed := false, order := 3 } ]
  { id := generatePlanId task now, title := task,
    description := .str ("Development plan for: " ++ task),
    createdAt := now, updatedAt := now, status := .planning,
    overview := { projectType := .str (strOrDefault opts.projectType "fullstack"),
                  estimatedTime := .str "TBD", complexity := .str "medium" },
    fileStructure := { directories := .arr [.str "src/", .str "tests/"],
                       files := .arr [.str "package.json", .str "README.md", .str "src/index.js"] },
    dependencies := { npm := .arr [], apis := .arr [], services := .arr [] },
    steps := basicSteps,
    progress := { completedSteps := 0, totalSteps := basicSteps.length, percentage := .int 0 } }

/-- State of the on-disk store: the plans directory as an association of file
keys (plan ids) to decoded plan documents, plus the single config document.
Serialization is modelled as the identity on well-formed documents. -/
structure StoreState where
  plans : List (String × ProjectPlan)
  config : Option PlannerConfig

/-- Whole-document overwrite of the file keyed `k`: replace the document in
place when the key exists, else append a new one. -/
def putKV (files : List (String × ProjectPlan)) (k : String) (v : ProjectPlan) :
    List (String × ProjectPlan) :=
  if files.any (fun kv => kv.1 = k) then
    files.map (fun kv => if kv.1 = k then (k, v) else kv)
  else files ++ [(k, v)]

/-- Look a plan document up by its key. -/
def getKV : List (String × ProjectPlan) → String → Option ProjectPlan
  | [], _ => none
  | kv :: rest, k => if kv.1 = k then some kv.2 else getKV rest k

/-- Embedding of `FileStorage.savePlan` (src/storage/FileStorage.ts lines
27-31): write the plan as one document keyed by `plan.id`, overwriting if
present.  No other file and no config field is touched; the config value is
never consulted. -/
def savePlan (st : StoreState) (plan : ProjectPlan) : StoreState :=
  { st with plans := putKV st.plans plan.id plan }

/-- Embedding of `FileStorage.loadPlan`: the document for `id`, absent as
`none`. -/
def loadPlan (st : StoreState) (id : String) : Option ProjectPlan :=
  getKV st.plans id

/-- Insertion step of a stable descending sort by `createdAt`: the new plan
goes after every already-placed plan whose `createdAt` is at least as large,
preserving relative order of equal keys. -/
def insertByCreated (p : ProjectPlan) : List ProjectPlan → List ProjectPlan
  | [] => [p]
  | q :: rest =>
      if p.createdAt ≤ q.createdAt then q :: insertByCreated p rest
      else p :: q :: rest

/-- Stable sort by `createdAt` descending, modelling the JavaScript stable
`sort((a, b) => b.createdAt - a.createdAt)`. -/
def sortByCreatedDesc : List ProjectPlan → List ProjectPlan
  | [] => []
  | p :: rest => insertByCreated p (sortByCreatedDesc rest)

/-- Embedding of `FileStorage.listPlans` (src/storage/FileStorage.ts lines
49-70): every stored document, sorted by creation date, newest first (the
comparator `b.createdAt - a.createdAt`). -/
def listPlans (st : StoreState) : List ProjectPlan :=
  sortByCreatedDesc (st.plans.map Prod.snd)

/-- Floor base-2 logarithm, fuel-driven structural recursion (any fuel at
least the logarithm is enough; `n` itself is). -/
def natLog2Aux : Nat → Nat → Nat
  | 0, _ => 0
  | f + 1, n => if n ≤ 1 then 0 else natLog2Aux f (n / 2) + 1

/-- Floor base-2 logarithm of a natural number (0 for 0 and 1). -/
def natLog2 (n : Nat) : Nat := natLog2Aux n n

/-- Round the rational `num / den` to the nearest integer, ties to even —
the IEEE-754 default rounding applied to a scaled significand. -/
def rne (num den : Nat) : Nat :=
  let q := num / den
  let r := num % den
  if 2 * r < den then q
  else if den < 2 * r then q + 1
  else if q % 2 = 0 then q else q + 1

/-- IEEE-754 binary64 quotient of two exactly representable naturals, as a
dyadic pair with value `m * 2 ^ e`: the exact quotient is scaled so the
significand lands in [2^52, 2^53) and rounded to nearest, ties to even.
Faithful for operands below 2^53, which covers every JavaScript array length
and completed-step count; overflow and subnormals cannot occur there. -/
def flDiv (a b : Nat) : Nat × Int :=
  if a = 0 then (0, 0)
  else
    let la := natLog2 a
    let lb := natLog2 b
    let s : Int := if b * 2 ^ la ≤ a * 2 ^ lb then (la : Int) - lb else (la : Int) - lb - 1
    let shift : Int := 52 - s
    let p := if 0 ≤ shift then (a * 2 ^ shift.toNat, b) else (a, b * 2 ^ (-shift).toNat)
    (rne p.1 p.2, s - 52)

/-- IEEE-754 binary64 product of a double (as a dyadic pair) with 100: the
exact product is renormalized to a 53-bit significand with round to nearest,
ties to even. -/
def flMul100 (d : Nat × Int) : Nat × Int :=
  if d.1 = 0 then (0, 0)
  else
    let m0 := d.1 * 100
    let l := natLog2 m0
    if l ≤ 52 then (m0, d.2)
    else (rne m0 (2 ^ (l - 52)), d.2 + (l - 52))

/-- JavaScript `Math.round` on a nonnegative double given as a dyadic pair:
the closest integer to the exact value of the double, half-way cases toward
positive infinity (the ECMAScript definition). -/
def jsMathRound (d : Nat × Int) : Nat :=
  if 0 ≤ d.2 then d.1 * 2 ^ d.2.toNat
  else
    let k := (-d.2).toNat
    (d.1 + 2 ^ (k - 1)) / 2 ^ k

/-- JavaScript `Math.round((c / t) * 100)` in IEEE-754 double precision: NaN
when `t = 0` (division by zero), otherwise `Math.round` of the correctly
rounded double product of the correctly rounded double quotient `c / t`
with 100, all modelled exactly at the bit level on dyadic pairs.  This can
differ from exact rational rounding: 23 of 40 gives 57 here (as in the
program), where exact rounding of 57.5 gives 58. -/
def jsRoundPct (c t : Nat) : JsNum :=
  if t = 0 then .nan else .int (jsMathRound (flMul100 (flDiv c t)) : Nat)

/-- Specification-side percentage, written from the claim's words
`round(100 * completedSteps / totalSteps)` as exact rational rounding half
up (`(200 c + t) / (2 t)` in integer division), for comparison with the
program's double-precision `jsRoundPct`. -/
def specRoundPct (c t : Nat) : Int := ((200 * c + t) / (2 * t) : Nat)

/-- Record part of `FileStorage.updatePlan` (src/storage/FileStorage.ts lines
82-94): set `updatedAt` to now and recompute the progress triple from the
steps array. -/
def updatePlanRecord (plan : ProjectPlan) (now : Nat) : ProjectPlan :=
  let completedSteps := (plan.steps.filter (fun s => s.completed)).length
  { plan with
    updatedAt := now,
    progress := { completedSteps := completedSteps,
                  totalSteps := plan.steps.length,
                  percentage := jsRoundPct completedSteps plan.steps.length } }

/-- Embedding of `FileStorage.updatePlan`: recompute the record and persist
it with the same whole-document overwrite as `savePlan`. -/
def updatePlan (st : StoreState) (plan : ProjectPlan) (now : Nat) : StoreState × ProjectPlan :=
  let p := updatePlanRecord plan now
  (savePlan st p, p)

/-- Boolean substring test, modelling JavaScript `String.prototype.includes`. -/
def listIncludes (l sub : List Char) : Bool :=
  l.tails.any (fun suf => sub.isPrefixOf suf)

/-- String-level wrapper of `listIncludes`. -/
def strIncludes (s sub : String) : Bool :=
  listIncludes s.data sub.data

/-- JavaScript `s.split(' ')[0]`: the prefix up to the first space character
(only U+0020, not general whitespace). -/
def firstSpaceTok (s : String) : String :=
  String.mk (s.data.takeWhile (fun c => !(c = ' ')))

/-- Match predicate of `FileStorage.findPlansByTitle` (src/storage/
FileStorage.ts lines 118-121): the lowercased title contains the lowercased
term, or the lowercased term contains the first space-delimited token of the
lowercased title. -/
def titleMatches (planTitle term : String) : Bool :=
  strIncludes (lowerStr planTitle) (lowerStr term) ||
  strIncludes (lowerStr term) (firstSpaceTok (lowerStr planTitle))

/-- Embedding of `FileStorage.findPlansByTitle`: filter the listing by
`titleMatches`. -/
def findPlansByTitle (st : StoreState) (term : String) : List ProjectPlan :=
  (listPlans st).filter (fun p => titleMatches p.title term)

/-- Specification-side match predicate, written from the spec words "term
contains the plan title's first whitespace-delimited token", for comparison
with the source's `titleMatches` (which splits on the space character only). -/
def specTitleMatches (planTitle term : String) : Bool :=
  strIncludes (lowerStr planTitle) (lowerStr term) ||
  strIncludes (lowerStr term)
    (String.mk ((lowerStr planTitle).data.takeWhile (fun c => !(isJsWs c))))

/-- Step location and mutation of the progress command (src/commands/
progress.ts lines 137-143 and 184-185): `stepIndex = stepNumber - 1` indexes
the steps array directly; an index outside the array yields the not-found
outcome (`none`) and nothing is mutated, otherwise only the located step's
`completed` flag is set. -/
def setStepByNumber (plan : ProjectPlan) (stepNumber : Int) (b : Bool) : Option ProjectPlan :=
  if stepNumber < 1 then none
  else
    let i := (stepNumber - 1).toNat
    match plan.steps[i]? with
    | none => none
    | some s => some { plan with steps := plan.steps.set i { s with completed := b } }

/-- Step-completion path: the progress command's locate-and-set chained with
the Plan Store's `updatePlan` for the recompute-and-persist step it delegates
to (spec section 4.4; the command file itself exercises the same mutation on
in-memory mock data and simulates the save).  On not-found the command
returns before any mutation or write, so the store is returned unchanged. -/
def stepCompletionRun (st : StoreState) (plan : ProjectPlan) (stepNumber : Int)
    (b : Bool) (now : Nat) : StoreState × Option ProjectPlan :=
  match setStepByNumber plan stepNumber b with
  | none => (st, none)
  | some p1 =>
    let r := updatePlan st p1 now
    (r.1, some r.2)

/-- Options record with no project type and no framework. -/
def defaultOpts : CreatePlanOptions :=
  { task := "t", projectType := none, framework := none, interactive := none }

/-- Options record selecting the fullstack project type. -/
def fullstackOpts : CreatePlanOptions :=
  { task := "t", projectType := some "fullstack", framework := none, interactive := none }

/-- Options record selecting the backend project type. -/
def backendOpts : CreatePlanOptions :=
  { task := "t", projectType := some "backend", framework := none, interactive := none }

/-- Concrete step for scenario plans. -/
def scenarioStep (i : Nat) (t : String) (b : Bool) : PlanStep :=
  { id := generateStepId i, title := .str t, description := .str "",
    files := .arr [], dependencies := .arr [], completed := b, order := i }

/-- Concrete plan for scenario stores. -/
def mkScenarioPlan (id title : String) (createdAt : Nat) (steps : List PlanStep) :
    ProjectPlan :=
  { id := id, title := title, description := .str "", createdAt := createdAt,
    updatedAt := createdAt, status := .planning,
    overview := { projectType := .str "fullstack", estimatedTime := .str "TBD",
                  complexity := .str "medium" },
    fileStructure := { directories := .arr [], files := .arr [] },
    dependencies := { npm := .arr [], apis := .arr [], services := .arr [] },
    steps := steps,
    progress := { completedSteps := 0, totalSteps := steps.length, percentage := .int 0 } }

/-- The plan titled "Build a Todo App with Authentication" of the search
scenario. -/
def todoPlan : ProjectPlan :=
  mkScenarioPlan "todo-app-1" "Build a Todo App with Authentication" 2 []

/-- The plan titled "Build a REST API for Blog" of the search scenario. -/
def restPlan : ProjectPlan :=
  mkScenarioPlan "rest-api-1" "Build a REST API for Blog" 1 []

/-- Store holding exactly the two scenario plans. -/
def twoPlanStore : StoreState :=
  { plans := [(todoPlan.id, todoPlan), (restPlan.id, restPlan)], config := none }

/-- Plan whose title contains a tab character, separating the space-splitting
of the source from the whitespace-splitting of the spec wording. -/
def tabTitlePlan : ProjectPlan :=
  mkScenarioPlan "tab-1" "Todo\tApp" 1 []

/-- Store holding only the tab-titled plan. -/
def tabStore : StoreState :=
  { plans := [(tabTitlePlan.id, tabTitlePlan)], config := none }

/-- Plan with an empty steps array, as produced by an AI response whose
`steps` field is `[]`. -/
def emptyStepsPlan : ProjectPlan :=
  mkScenarioPlan "empty-1" "Empty" 0 []

/-- Three-step plan for the out-of-range progress scenario. -/
def threeStepPlan : ProjectPlan :=
  mkScenarioPlan "three-1" "Three Steps" 3
    [scenarioStep 1 "A" false, scenarioStep 2 "B" false, scenarioStep 3 "C" false]

/-- Five-step plan with the first three steps completed (the 60% scenario of
the spec). -/
def fiveStepPlan : ProjectPlan :=
  mkScenarioPlan "five-1" "Five Steps" 4
    [scenarioStep 1 "A" true, scenarioStep 2 "B" true, scenarioStep 3 "C" true,
     scenarioStep 4 "D" false, scenarioStep 5 "E" false]

/-- Forty-step plan with the first 23 steps completed: the double-precision
percentage is 57 while exact rounding of 57.5 gives 58. -/
def fortyPlan : ProjectPlan :=
  mkScenarioPlan "forty-1" "Forty Steps" 6
    ((List.range 40).map (fun i => scenarioStep (i + 1) "S" (decide (i < 23))))

/-- Characters kept by the whitespace collapse are already slug characters
when every input character is in the kept class. -/
theorem collapseWs_chars (b : Bool) (l : List Char)
    (hl : ∀ c ∈ l, isSlugKeep c = true) :
    ∀ c ∈ collapseWs b l, isSlugChar c = true := by
  induction l generalizing b with
  | nil => simp [collapseWs]
  | cons x rest ih =>
    intro c hc
    have hrest : ∀ c ∈ rest, isSlugKeep c = true := fun c hc => hl c (List.mem_cons_of_mem _ hc)
    by_cases hw : isJsWs x
    · by_cases hb : b
      · simp only [collapseWs, hw, hb, if_true] at hc
        exact ih true hrest c hc
      · simp only [collapseWs, hw, hb, if_true, if_false] at hc
        rcases List.mem_cons.mp hc with rfl | hc2
        · decide
        · exact ih true hrest c hc2
    · simp only [collapseWs, hw, if_false] at hc
      rcases List.mem_cons.mp hc with rfl | hc2
      · have hk := hl c (List.mem_cons_self _ _)
        simp only [isSlugKeep, Bool.or_eq_true] at hk
        simp only [isSlugChar, Bool.or_eq_true]
        rcases hk with ((h1 | h2) | h3) | h4
        · exact Or.inl (Or.inl h1)
        · exact Or.inl (Or.inr h2)
        · exact absurd h3 (by simp [hw])
        · exact Or.inr h4
      · exact ih false hrest c hc2

/-- Character of a decimal digit is a slug character. -/
theorem digitChar_slug (d : Nat) (hd : d < 10) :
    isSlugChar (Char.ofNat (48 + d)) = true := by
  interval_cases d <;> decide

/-- Every character produced by the digit accumulator is a slug character
when the accumulator already holds only slug characters. -/
theorem natDigitsAux_chars (f : Nat) :
    ∀ (n : Nat) (acc : List Char), (∀ c ∈ acc, isSlugChar c = true) →
      ∀ c ∈ natDigitsAux f n acc, isSlugChar c = true := by
  induction f with
  | zero => intro n acc hacc c hc; exact hacc c hc
  | succ f ih =>
    intro n acc hacc c hc
    by_cases hn : n = 0
    · simp only [natDigitsAux, hn, if_true] at hc
      exact hacc c hc
    · simp only [natDigitsAux, hn, if_false] at hc
      refine ih (n / 10) _ ?_ c hc
      intro c' hc'
      rcases List.mem_cons.mp hc' with rfl | hc''
      · exact digitChar_slug (n % 10) (Nat.mod_lt _ (by decide))
      · exact hacc c' hc''

/-- Every character of the decimal rendering is a slug character. -/
theorem natDigits_chars (n : Nat) : ∀ c ∈ natDigits n, isSlugChar c = true := by
  intro c hc
  by_cases hn : n = 0
  · simp only [natDigits, hn, if_true] at hc
    rcases List.mem_cons.mp hc with rfl | h
    · decide
    · simp at h
  · simp only [natDigits, hn, if_false] at hc
    exact natDigitsAux_chars n n [] (by simp) c hc

/-- C9 — for every title string (including empty and unicode titles, and
titles whose slug becomes empty after sanitization) and every timestamp, the
generated plan id is non-empty and consists only of characters in
`[a-z0-9-]`; the definition `generatePlanId` follows the transformation the
claim describes (lowercase, strip, collapse whitespace to hyphens, truncate
to 30, append hyphen and the time in milliseconds). -/
theorem generatePlanId_safe (t : String) (now : Nat) :
    generatePlanId t now ≠ "" ∧
    ∀ c ∈ (generatePlanId t now).data, isSlugChar c = true := by
  constructor
  · intro h
    have hd : (generatePlanId t now).data = "".data := by rw [h]
    simp only [generatePlanId] at hd
    simp at hd
  · intro c hc
    have hdata : (generatePlanId t now).data =
        ((collapseWs false ((t.data.map Char.toLower).filter isSlugKeep)).take 30)
          ++ '-' :: natDigits now := rfl
    rw [hdata] at hc
    rcases List.mem_append.mp hc with h | h
    · exact collapseWs_chars false _ (fun c hc => (List.mem_filter.mp hc).2) c
        (List.mem_of_mem_take h)
    · rcases List.mem_cons.mp h with rfl | h3
      · decide
      · exact natDigits_chars now c h3

/-- Every successful run of the parse try-block yields a plan with status
planning and the hardcoded zero progress over the mapped steps. -/
theorem parseAITry_ok_shape (text task : String) (opts : CreatePlanOptions) (now : Nat)
    (p : ProjectPlan) (h : parseAITry text task opts now = .ok p) :
    p.status = .planning ∧ p.progress.completedSteps = 0 ∧
    p.progress.percentage = .int 0 ∧ p.progress.totalSteps = p.steps.length := by
  unfold parseAITry at h
  simp only [bind, Except.bind] at h
  cases hE : extractJson text with
  | none => simp only [hE] at h; exact Except.noConfusion h
  | some region =>
  simp only [hE] at h
  cases hD : jsonDecode region with
  | none => simp only [hD] at h; exact Except.noConfusion h
  | some ai =>
  simp only [hD] at h
  cases hT : jsGet ai "title" with
  | error e => simp only [hT] at h; exact Except.noConfusion h
  | ok tJson =>
  simp only [hT] at h
  cases hO : jsOr tJson (Json.str task) with
  | undefined => simp only [hO] at h; exact Except.noConfusion h
  | null => simp only [hO] at h; exact Except.noConfusion h
  | bool b => simp only [hO] at h; exact Except.noConfusion h
  | num n => simp only [hO] at h; exact Except.noConfusion h
  | arr xs => simp only [hO] at h; exact Except.noConfusion h
  | obj fs => simp only [hO] at h; exact Except.noConfusion h
  | str titleStr =>
  simp only [hO] at h
  cases hS : jsGet ai "steps" with
  | error e => simp only [hS] at h; exact Except.noConfusion h
  | ok stepsJson =>
  simp only [hS] at h
  cases stepsJson with
  | undefined => simp only at h; exact Except.noConfusion h
  | null => simp only at h; exact Except.noConfusion h
  | bool b => simp only at h; exact Except.noConfusion h
  | num n => simp only at h; exact Except.noConfusion h
  | str s => simp only at h; exact Except.noConfusion h
  | obj fs => simp only at h; exact Except.noConfusion h
  | arr xs =>
  simp only [] at h
  cases hC : convertSteps xs 0 with
  | error e => simp only [hC] at h; exact Except.noConfusion h
  | ok steps =>
  simp only [hC] at h
  cases hDe : jsGet ai "description" with
  | error e => simp only [hDe] at h; exact Except.noConfusion h
  | ok dJson =>
  simp only [hDe] at h
  cases h1 : jsGetChain ai "overview" "projectType" with
  | error e => simp only [h1] at h; exact Except.noConfusion h
  | ok ovT =>
  simp only [h1] at h
  cases h2 : jsGetChain ai "overview" "estimatedTime" with
  | error e => simp only [h2] at h; exact Except.noConfusion h
  | ok ovE =>
  simp only [h2] at h
  cases h3 : jsGetChain ai "overview" "complexity" with
  | error e => simp only [h3] at h; exact Except.noConfusion h
  | ok ovC =>
  simp only [h3] at h
  cases h4 : jsGetChain ai "fileStructure" "directories" with
  | error e => simp only [h4] at h; exact Except.noConfusion h
  | ok fsD =>
  simp only [h4] at h
  cases h5 : jsGetChain ai "fileStructure" "files" with
  | error e => simp only [h5] at h; exact Except.noConfusion h
  | ok fsF =>
  simp only [h5] at h
  cases h6 : jsGetChain ai "dependencies" "npm" with
  | error e => simp only [h6] at h; exact Except.noConfusion h
  | ok dN =>
  simp only [h6] at h
  cases h7 : jsGetChain ai "dependencies" "apis" with
  | error e => simp only [h7] at h; exact Except.noConfusion h
  | ok dA =>
  simp only [h7] at h
  cases h8 : jsGetChain ai "dependencies" "services" with
  | error e => simp only [h8] at h; exact Except.noConfusion h
  | ok dS =>
  simp only [h8] at h
  cases h
  exact ⟨rfl, rfl, rfl, rfl⟩

/-- When the decoded response's `steps` property is absent (undefined), the
parse try-block throws (the `.map` call) and yields the error outcome. -/
theorem parseAITry_steps_missing (text task : String) (opts : CreatePlanOptions) (now : Nat)
    (region : String) (ai : Json) (hE : extractJson text = some region)
    (hD : jsonDecode region = some ai) (hS : jsGet ai "steps" = .ok .undefined) :
    parseAITry text task opts now = .error () := by
  unfold parseAITry
  simp only [bind, Except.bind, hE, hD]
  cases hT : jsGet ai "title" with
  | error e => simp only [hT]
  | ok tJson =>
  simp only [hT]
  cases hO : jsOr tJson (Json.str task) with
  | undefined => simp only [hO]
  | null => simp only [hO]
  | bool b => simp only [hO]
  | num n => simp only [hO]
  | arr xs => simp only [hO]
  | obj fs => simp only [hO]
  | str titleStr => simp only [hO, hS]

/-- The fallback skeleton has three steps, or five for "fullstack". -/
theorem getDefaultSteps_length (pt : String) :
    (getDefaultSteps pt).length = if pt = "fullstack" then 5 else 3 := by
  unfold getDefaultSteps
  split <;> rfl

/-- C1 (amended) — `generatePlan` is total and, for every AI outcome, task,
options and timestamp, returns a plan with status planning,
`completedSteps = 0`, `percentage = 0` and `totalSteps = len(steps)`;  when
the AI call throws, when the response text has no brace region, or when the
decoded response lacks the `steps` field, the result is exactly the fallback
plan, whose step count is at least 1.  (The original claim's unconditional
`totalSteps ≥ 1` fails: an AI response decoding to an object whose `steps`
field is an empty array produces a plan with zero steps — see the
counterexample.) -/
theorem generatePlan_total (aiText : Option String) (task : String)
    (opts : CreatePlanOptions) (now : Nat) :
    (generatePlan aiText task opts now).status = .planning ∧
    (generatePlan aiText task opts now).progress.completedSteps = 0 ∧
    (generatePlan aiText task opts now).progress.percentage = .int 0 ∧
    (generatePlan aiText task opts now).progress.totalSteps =
      (generatePlan aiText task opts now).steps.length ∧
    (aiText = none → generatePlan aiText task opts now = createFallbackPlan task opts now) ∧
    (∀ text, aiText = some text → extractJson text = none →
        generatePlan aiText task opts now = createFallbackPlan task opts now) ∧
    (∀ text region ai, aiText = some text → extractJson text = some region →
        jsonDecode region = some ai → jsGet ai "steps" = .ok .undefined →
        generatePlan aiText task opts now = createFallbackPlan task opts now) ∧
    1 ≤ (createFallbackPlan task opts now).steps.length := by
  have hfb : 1 ≤ (createFallbackPlan task opts now).steps.length := by
    show 1 ≤ (getDefaultSteps (strOrDefault opts.projectType "fullstack")).length
    rw [getDefaultSteps_length]
    split <;> decide
  have hshape : (generatePlan aiText task opts now).status = .planning ∧
      (generatePlan aiText task opts now).progress.completedSteps = 0 ∧
      (generatePlan aiText task opts now).progress.percentage = .int 0 ∧
      (generatePlan aiText task opts now).progress.totalSteps =
        (generatePlan aiText task opts now).steps.length := by
    cases aiText with
    | none => exact ⟨rfl, rfl, rfl, rfl⟩
    | some text =>
      have hgen : generatePlan (some text) task opts now = parseAIResponse text task opts now := rfl
      rw [hgen]
      unfold parseAIResponse
      cases hP : parseAITry text task opts now with
      | error e => simp only [hP]; exact ⟨rfl, rfl, rfl, rfl⟩
      | ok p => simp only [hP]; exact parseAITry_ok_shape text task opts now p hP
  refine ⟨hshape.1, hshape.2.1, hshape.2.2.1, hshape.2.2.2, ?_, ?_, ?_, hfb⟩
  · rintro rfl; rfl
  · rintro text rfl hnone
    show parseAIResponse text task opts now = _
    unfold parseAIResponse parseAITry
    simp only [hnone]
  · rintro text region ai rfl hE hD hS
    show parseAIResponse text task opts now = _
    unfold parseAIResponse
    rw [parseAITry_steps_missing text task opts now region ai hE hD hS]

/-- Witness for C1: a throwing AI call and a brace-free response text both
yield exactly the fallback plan, with status planning. -/
theorem generatePlan_total_witness :
    (generatePlan none "x" defaultOpts 0).status = .planning ∧
    generatePlan none "x" defaultOpts 0 = createFallbackPlan "x" defaultOpts 0 ∧
    (generatePlan (some "no braces here") "x" defaultOpts 0).status = .planning ∧
    generatePlan (some "no braces here") "x" defaultOpts 0 = createFallbackPlan "x" defaultOpts 0 := by
  have h1 := generatePlan_total none "x" defaultOpts 0
  have h2 := generatePlan_total (some "no braces here") "x" defaultOpts 0
  exact ⟨h1.1, h1.2.2.2.2.1 rfl, h2.1,
    h2.2.2.2.2.2.1 "no braces here" rfl (by rfl)⟩

/-- Counterexample for C1 as stated: an AI response whose `steps` field is an
empty array decodes successfully and produces a plan with zero steps, so the
returned plan violates `totalSteps = len(steps) ≥ 1`. -/
theorem generatePlan_empty_steps_cex :
    (generatePlan (some "\x7b\"steps\": []\x7d") "todo app" defaultOpts 0).progress.totalSteps = 0 ∧
    (generatePlan (some "\x7b\"steps\": []\x7d") "todo app" defaultOpts 0).steps.length = 0 ∧
    ¬ 1 ≤ (generatePlan (some "\x7b\"steps\": []\x7d") "todo app" defaultOpts 0).progress.totalSteps := by
  exact ⟨rfl, rfl, by decide⟩

/-- The specification-side integer formula is exact rational rounding half
up of `100 c / t`. -/
theorem specRoundPct_eq_round (c t : Nat) (h : t ≠ 0) :
    specRoundPct c t = round ((100 * c : ℚ) / t) := by
  unfold specRoundPct
  rw [round_eq]
  have hq : (100 * c : ℚ) / t + 1 / 2 = ((200 * c + t : ℕ) : ℚ) / ((2 * t : ℕ) : ℚ) := by
    have ht : (t : ℚ) ≠ 0 := Nat.cast_ne_zero.mpr h
    push_cast
    field_simp
    ring
  rw [hq, Rat.floor_natCast_div_natCast]
  push_cast
  rfl

/-- Replacing a present key in the directory makes it resolve to the new
document. -/
theorem getKV_map_replace_self (files : List (String × ProjectPlan)) (k : String)
    (v : ProjectPlan) (h : files.any (fun kv => kv.1 = k) = true) :
    getKV (files.map (fun kv => if kv.1 = k then (k, v) else kv)) k = some v := by
  induction files with
  | nil => simp at h
  | cons kv rest ih =>
    by_cases hk : kv.1 = k
    · simp [List.map_cons, if_pos hk, getKV]
    · simp only [List.any_cons, Bool.or_eq_true, decide_eq_true_eq] at h
      rcases h with h | h
      · exact absurd h hk
      · simp only [List.map_cons, if_neg hk, getKV, if_neg hk]
        exact ih (by simpa using h)

/-- Replacing one key leaves every other key's document unchanged. -/
theorem getKV_map_replace_ne (files : List (String × ProjectPlan)) (k : String)
    (v : ProjectPlan) (j : String) (hj : j ≠ k) :
    getKV (files.map (fun kv => if kv.1 = k then (k, v) else kv)) j = getKV files j := by
  induction files with
  | nil => rfl
  | cons kv rest ih =>
    by_cases hk : kv.1 = k
    · simp only [List.map_cons, if_pos hk, getKV]
      rw [if_neg (fun hh => hj hh.symm), if_neg (fun hh => hj (hh.symm.trans hk))]
      exact ih
    · simp only [List.map_cons, if_neg hk, getKV]
      split <;> first | rfl | exact ih

/-- Appending a fresh key makes it resolve to the new document. -/
theorem getKV_append_self (files : List (String × ProjectPlan)) (k : String)
    (v : ProjectPlan) (h : files.any (fun kv => kv.1 = k) = false) :
    getKV (files ++ [(k, v)]) k = some v := by
  induction files with
  | nil => simp [getKV]
  | cons kv rest ih =>
    simp only [List.any_cons, Bool.or_eq_false_iff, decide_eq_false_iff_not] at h
    simp only [List.cons_append, getKV, if_neg h.1]
    exact ih (by simp [h.2])

/-- Appending a fresh key leaves every other key's document unchanged. -/
theorem getKV_append_ne (files : List (String × ProjectPlan)) (k : String)
    (v : ProjectPlan) (j : String) (hj : j ≠ k) :
    getKV (files ++ [(k, v)]) j = getKV files j := by
  induction files with
  | nil =>
    simp only [List.nil_append, getKV]
    rw [if_neg (fun hh : k = j => hj hh.symm)]
  | cons kv rest ih =>
    simp only [List.cons_append, getKV]
    split <;> first | rfl | exact ih

/-- The whole-document overwrite stores the written document under its key. -/
theorem getKV_putKV_self (files : List (String × ProjectPlan)) (k : String) (v : ProjectPlan) :
    getKV (putKV files k v) k = some v := by
  unfold putKV
  by_cases h : files.any (fun kv => kv.1 = k)
  · rw [if_pos h]; exact getKV_map_replace_self files k v h
  · rw [if_neg h]; exact getKV_append_self files k v (Bool.eq_false_iff.mpr h)

/-- The whole-document overwrite touches no other key. -/
theorem getKV_putKV_ne (files : List (String × ProjectPlan)) (k : String) (v : ProjectPlan)
    (j : String) (hj : j ≠ k) : getKV (putKV files k v) j = getKV files j := by
  unfold putKV
  by_cases h : files.any (fun kv => kv.1 = k)
  · rw [if_pos h]; exact getKV_map_replace_ne files k v j hj
  · rw [if_neg h]; exact getKV_append_ne files k v j hj

set_option maxRecDepth 10000 in
set_option maxHeartbeats 4000000 in
/-- C2 (amended) — after every `update(plan)` the persisted document holds
`completedSteps = count of completed steps` and `totalSteps = len(steps)`;
when `totalSteps > 0` the persisted percentage is `Math.round` of the
double-precision evaluation of `(completedSteps / totalSteps) * 100`, which
agrees with exact rational rounding `round(100 c / t)` for every `t ≤ 40`
except the pair `c = 23, t = 40`, where the program persists 57 while exact
rounding gives 58; when `totalSteps = 0` the division is NOT guarded and the
percentage is NaN rather than 0. -/
theorem updatePlan_progress_spec (st : StoreState) (plan : ProjectPlan) (now : Nat) :
    loadPlan (updatePlan st plan now).1 ((updatePlan st plan now).2).id =
      some ((updatePlan st plan now).2) ∧
    ((updatePlan st plan now).2).progress.totalSteps = plan.steps.length ∧
    ((updatePlan st plan now).2).progress.completedSteps =
      plan.steps.countP (fun s => s.completed) ∧
    (plan.steps.length ≠ 0 →
      ((updatePlan st plan now).2).progress.percentage =
        .int (jsMathRound (flMul100
          (flDiv (plan.steps.countP (fun s => s.completed)) plan.steps.length)))) ∧
    (plan.steps.length = 0 → ((updatePlan st plan now).2).progress.percentage = .nan) ∧
    (∀ t < 41, ∀ c < 41, 1 ≤ t → c ≤ t →
      jsRoundPct c t = .int (if c = 23 ∧ t = 40 then 57 else specRoundPct c t)) ∧
    jsRoundPct 23 40 = .int 57 ∧
    specRoundPct 23 40 = 58 := by
  refine ⟨?_, rfl, ?_, ?_, ?_, by decide, rfl, rfl⟩
  · show getKV (putKV st.plans _ _) _ = _
    exact getKV_putKV_self _ _ _
  · show (plan.steps.filter (fun s => s.completed)).length = _
    exact (List.countP_eq_length_filter _ _).symm
  · intro h
    show jsRoundPct (plan.steps.filter (fun s => s.completed)).length plan.steps.length = _
    rw [jsRoundPct, if_neg h, List.countP_eq_length_filter]
  · intro h
    show jsRoundPct (plan.steps.filter (fun s => s.completed)).length plan.steps.length = _
    rw [jsRoundPct, if_pos h]

/-- Witness for C2: the five-step plan with three completed steps persists a
60% progress triple, and the double-precision rounding agrees with exact
rounding at 3 of 5. -/
theorem updatePlan_progress_spec_witness :
    fiveStepPlan.steps.length = 5 ∧
    fiveStepPlan.steps.countP (fun s => s.completed) = 3 ∧
    ((updatePlan twoPlanStore fiveStepPlan 9).2).progress.totalSteps = 5 ∧
    ((updatePlan twoPlanStore fiveStepPlan 9).2).progress.percentage =
      .int (jsMathRound (flMul100 (flDiv (fiveStepPlan.steps.countP (fun s => s.completed))
        fiveStepPlan.steps.length))) ∧
    ((updatePlan twoPlanStore fiveStepPlan 9).2).progress.percentage = .int 60 ∧
    jsRoundPct 3 5 = .int (if 3 = 23 ∧ 5 = 40 then 57 else specRoundPct 3 5) ∧
    loadPlan (updatePlan twoPlanStore fiveStepPlan 9).1 ((updatePlan twoPlanStore fiveStepPlan 9).2).id =
      some ((updatePlan twoPlanStore fiveStepPlan 9).2) := by
  have h := updatePlan_progress_spec twoPlanStore fiveStepPlan 9
  refine ⟨rfl, rfl, h.2.1.trans rfl, h.2.2.2.1 (by decide), rfl,
    h.2.2.2.2.2.1 5 (by decide) 3 (by decide) (by decide) (by decide), h.1⟩

/-- Counterexample for C2 as stated, in both parts: updating a plan with an
empty steps array persists percentage NaN, not 0 (the division by zero is
unguarded); and updating a forty-step plan with 23 completed persists 57,
while the claimed `round(100 * 23 / 40) = round(57.5)` is 58 — the double
arithmetic lands just below the half-integer. -/
theorem updatePlan_zero_steps_cex :
    ((updatePlan twoPlanStore emptyStepsPlan 5).2).progress.percentage = JsNum.nan ∧
    ((updatePlan twoPlanStore emptyStepsPlan 5).2).progress.totalSteps = 0 ∧
    JsNum.nan ≠ JsNum.int 0 ∧
    fortyPlan.steps.length = 40 ∧
    fortyPlan.steps.countP (fun s => s.completed) = 23 ∧
    ((updatePlan twoPlanStore fortyPlan 6).2).progress.percentage = JsNum.int 57 ∧
    round ((100 * 23 : ℚ) / 40) = 58 ∧
    JsNum.int 57 ≠ JsNum.int 58 := by
  refine ⟨rfl, rfl, by decide, rfl, rfl, rfl, ?_, by decide⟩
  exact (specRoundPct_eq_round 23 40 (by decide)).symm.trans rfl

/-- C10 — `save(plan)` writes only the document keyed `plan.id` (overwriting
it if present), leaves every other plan document and the config document
untouched, succeeds for any store contents, and no store operation reads the
config (hence `maxPlans` is never consulted or enforced): the plans part of
every operation is invariant under replacing the config. -/
theorem savePlan_frame (st : StoreState) (plan : ProjectPlan) (cfg : Option PlannerConfig) :
    (savePlan st plan).config = st.config ∧
    loadPlan (savePlan st plan) plan.id = some plan ∧
    (∀ j, j ≠ plan.id → loadPlan (savePlan st plan) j = loadPlan st j) ∧
    (savePlan { plans := st.plans, config := cfg } plan).plans = (savePlan st plan).plans ∧
    listPlans { plans := st.plans, config := cfg } = listPlans st ∧
    (∀ term, findPlansByTitle { plans := st.plans, config := cfg } term =
      findPlansByTitle st term) ∧
    (∀ id, loadPlan { plans := st.plans, config := cfg } id = loadPlan st id) ∧
    (∀ plan2 now, (updatePlan { plans := st.plans, config := cfg } plan2 now).1.plans =
      (updatePlan st plan2 now).1.plans) := by
  refine ⟨rfl, ?_, ?_, rfl, rfl, fun term => rfl, fun id => rfl, fun plan2 now => rfl⟩
  · exact getKV_putKV_self st.plans plan.id plan
  · intro j hj
    exact getKV_putKV_ne st.plans plan.id plan j hj

/-- Witness for C10: saving a third plan into the two-plan store leaves the
config and the existing documents unchanged and stores the new plan. -/
theorem savePlan_frame_witness :
    (savePlan twoPlanStore emptyStepsPlan).config = twoPlanStore.config ∧
    loadPlan (savePlan twoPlanStore emptyStepsPlan) emptyStepsPlan.id = some emptyStepsPlan ∧
    loadPlan (savePlan twoPlanStore emptyStepsPlan) "todo-app-1" =
      loadPlan twoPlanStore "todo-app-1" ∧
    twoPlanStore.plans.length = 2 := by
  have h := savePlan_frame twoPlanStore emptyStepsPlan none
  exact ⟨h.1, h.2.1, h.2.2.1 "todo-app-1" (by decide), rfl⟩

/-- C3 (amended) — the GeminiPlanner fallback produces exactly 3 steps
(Project Setup, Core Implementation, Testing) when the resolved project type
(the option, defaulting to "fullstack" when absent or empty) is not
"fullstack", and exactly 5 steps when it is "fullstack": the Backend Setup
step is inserted after step 1 and the Frontend Integration step appended to
the 3 common steps.  The create command's no-AI fallback `createBasicPlan`
produces exactly 3 steps for every project type, its Core Implementation
step referencing the task text. -/
theorem fallback_step_shapes (task : String) (opts : CreatePlanOptions) (now : Nat) :
    (strOrDefault opts.projectType "fullstack" = "fullstack" →
      ((createFallbackPlan task opts now).steps.map PlanStep.title) =
        [.str "Project Setup", .str "Backend Setup", .str "Core Implementation",
         .str "Testing & Documentation", .str "Frontend Integration"] ∧
      (createFallbackPlan task opts now).steps.length = 5) ∧
    (strOrDefault opts.projectType "fullstack" ≠ "fullstack" →
      ((createFallbackPlan task opts now).steps.map PlanStep.title) =
        [.str "Project Setup", .str "Core Implementation", .str "Testing & Documentation"] ∧
      (createFallbackPlan task opts now).steps.length = 3) ∧
    ((createBasicPlan task opts now).steps.map PlanStep.title) =
      [.str "Project Planning & Setup", .str "Core Implementation", .str "Testing & Refinement"] ∧
    (createBasicPlan task opts now).steps.length = 3 ∧
    ((createBasicPlan task opts now).steps.map PlanStep.description)[1]? =
      some (.str ("Implement the main functionality for: " ++ task)) := by
  refine ⟨?_, ?_, rfl, rfl, rfl⟩
  · intro h
    show ((getDefaultSteps (strOrDefault opts.projectType "fullstack")).map PlanStep.title) = _ ∧
      (getDefaultSteps (strOrDefault opts.projectType "fullstack")).length = 5
    rw [h]
    exact ⟨rfl, rfl⟩
  · intro h
    show ((getDefaultSteps (strOrDefault opts.projectType "fullstack")).map PlanStep.title) = _ ∧
      (getDefaultSteps (strOrDefault opts.projectType "fullstack")).length = 3
    unfold getDefaultSteps
    rw [if_neg h]
    exact ⟨rfl, rfl⟩

/-- Witness for C3: the fullstack fallback lists five step titles, the
backend one three. -/
theorem fallback_step_shapes_witness :
    ((createFallbackPlan "t" fullstackOpts 1).steps.map PlanStep.title) =
      [.str "Project Setup", .str "Backend Setup", .str "Core Implementation",
       .str "Testing & Documentation", .str "Frontend Integration"] ∧
    ((createFallbackPlan "t" backendOpts 1).steps.map PlanStep.title) =
      [.str "Project Setup", .str "Core Implementation", .str "Testing & Documentation"] := by
  exact ⟨((fallback_step_shapes "t" fullstackOpts 1).1 rfl).1,
    ((fallback_step_shapes "t" backendOpts 1).2.1 (by decide)).1⟩

/-- Counterexample for C3 as stated: the fullstack fallback produces five
steps, not four (splice inserts without removing, push appends), and the
create command's basic fallback produces three steps even for fullstack. -/
theorem fallback_fullstack_cex :
    (createFallbackPlan "build an app" fullstackOpts 0).steps.length = 5 ∧
    ¬ (createFallbackPlan "build an app" fullstackOpts 0).steps.length = 4 ∧
    (createBasicPlan "build an app" fullstackOpts 0).steps.length = 3 := by
  exact ⟨rfl, by decide, rfl⟩

/-- C4 — evaluation at the failing input: the fullstack fallback plan of the
generator carries step orders [1, 2, 2, 3, 4] and ids step-1, step-2,
step-2, step-3, step-4, so neither the orders nor the ids are unique within
the plan, against the stated invariant. -/
theorem fallback_fullstack_duplicates :
    ((generatePlan none "build an app" fullstackOpts 0).steps.map PlanStep.order) = [1, 2, 2, 3, 4] ∧
    ((generatePlan none "build an app" fullstackOpts 0).steps.map PlanStep.id) =
      ["step-1", "step-2", "step-2", "step-3", "step-4"] ∧
    ¬ ((generatePlan none "build an app" fullstackOpts 0).steps.map PlanStep.order).Nodup ∧
    ¬ ((generatePlan none "build an app" fullstackOpts 0).steps.map PlanStep.id).Nodup := by
  exact ⟨rfl, by decide, by decide, by decide⟩

/-- C6 — for every step number outside 1..len(steps), the step-completion
path signals not-found, mutates nothing and performs no write: the store is
returned unchanged. -/
theorem stepCompletion_notFound (st : StoreState) (plan : ProjectPlan) (n : Int) (b : Bool)
    (now : Nat) (h : n < 1 ∨ (plan.steps.length : Int) < n) :
    stepCompletionRun st plan n b now = (st, none) := by
  unfold stepCompletionRun setStepByNumber
  rcases h with h | h
  · rw [if_pos h]
  · rw [if_neg (by omega)]
    have hn : plan.steps[(n - 1).toNat]? = none := List.getElem?_eq_none (by omega)
    simp only [hn]

/-- Witness for C6: step 99 on a three-step plan is not found and the
persisted store is untouched. -/
theorem stepCompletion_notFound_witness :
    ((99 : Int) < 1 ∨ (threeStepPlan.steps.length : Int) < 99) ∧
    stepCompletionRun twoPlanStore threeStepPlan 99 true 10 = (twoPlanStore, none) := by
  exact ⟨Or.inr (by decide), stepCompletion_notFound twoPlanStore threeStepPlan 99 true 10
    (Or.inr (by decide))⟩

/-- C7 — for every in-range step number, the step-completion path produces a
plan that differs from the input only in the targeted step's completed flag
plus the recomputed progress triple and updatedAt: id, title, description,
status (never auto-transitioned, even at 100%), createdAt, overview,
fileStructure, dependencies, every other step, and every other field of the
targeted step are unchanged, and the result is persisted under the same id. -/
theorem stepCompletion_frame (st : StoreState) (plan : ProjectPlan) (n : Int) (b : Bool)
    (now : Nat) (h1 : 1 ≤ n) (h2 : n ≤ (plan.steps.length : Int)) :
    ∃ p2, (stepCompletionRun st plan n b now).2 = some p2 ∧
      p2.id = plan.id ∧ p2.title = plan.title ∧ p2.description = plan.description ∧
      p2.status = plan.status ∧ p2.createdAt = plan.createdAt ∧
      p2.overview = plan.overview ∧ p2.fileStructure = plan.fileStructure ∧
      p2.dependencies = plan.dependencies ∧
      p2.steps.length = plan.steps.length ∧
      (∀ j : Nat, j ≠ (n - 1).toNat → p2.steps[j]? = plan.steps[j]?) ∧
      (∀ s0, plan.steps[(n - 1).toNat]? = some s0 →
        p2.steps[(n - 1).toNat]? = some { s0 with completed := b }) ∧
      loadPlan (stepCompletionRun st plan n b now).1 p2.id = some p2 := by
  have hi : (n - 1).toNat < plan.steps.length := by omega
  have hs0 : plan.steps[(n - 1).toNat]? = some (plan.steps[(n - 1).toNat]) :=
    List.getElem?_eq_getElem hi
  unfold stepCompletionRun setStepByNumber
  rw [if_neg (by omega)]
  simp only [hs0]
  refine ⟨_, rfl, rfl, rfl, rfl, rfl, rfl, rfl, rfl, rfl, ?_, ?_, ?_, ?_⟩
  · show (plan.steps.set _ _).length = plan.steps.length
    exact List.length_set plan.steps _ _
  · intro j hj
    show (plan.steps.set _ _)[j]? = plan.steps[j]?
    exact List.getElem?_set_ne (fun hh => hj hh.symm)
  · intro s0 hs1
    have : s0 = plan.steps[(n - 1).toNat] := by
      exact (Option.some_inj.mp hs1).symm
    subst this
    show (plan.steps.set _ _)[(n - 1).toNat]? = _
    rw [List.getElem?_set_self hi]
  · show getKV (putKV st.plans _ _) _ = _
    exact getKV_putKV_self _ _ _

/-- Witness for C7: completing step 2 of the three-step plan preserves
status, title and step count. -/
theorem stepCompletion_frame_witness :
    (1 : Int) ≤ 2 ∧ (2 : Int) ≤ (threeStepPlan.steps.length : Int) ∧
    (stepCompletionRun twoPlanStore threeStepPlan 2 true 10).2.map ProjectPlan.status =
      some threeStepPlan.status ∧
    (stepCompletionRun twoPlanStore threeStepPlan 2 true 10).2.map ProjectPlan.title =
      some threeStepPlan.title ∧
    (stepCompletionRun twoPlanStore threeStepPlan 2 true 10).2.map
      (fun p => p.steps.length) = some 3 := by
  obtain ⟨p2, heq, hid, htitle, hdesc, hstatus, hcreated, hov, hfs, hdep, hlen,
    hother, htarget, hload⟩ :=
    stepCompletion_frame twoPlanStore threeStepPlan 2 true 10 (by decide) (by decide)
  refine ⟨by decide, by decide, ?_, ?_, ?_⟩ <;> (rw [heq]; simp [hstatus, htitle, hlen]; try rfl)

/-- Dropping while a predicate holds skips a whole prefix on which it holds
everywhere. -/
theorem dropWhile_append_all {p : Char → Bool} (a b : List Char)
    (h : ∀ x ∈ a, p x = true) : (a ++ b).dropWhile p = b.dropWhile p := by
  induction a with
  | nil => rfl
  | cons x rest ih =>
    simp only [List.cons_append, List.dropWhile_cons, h x (List.mem_cons_self _ _), if_true]
    exact ih (fun x hx => h x (List.mem_cons_of_mem _ hx))

/-- C5 (amended) — the extraction is the greedy regular-expression match
from the first opening brace to the LAST closing brace of the whole response
text, and exactly that region is handed to the one JSON decode: commentary
before the region (with no opening brace) and after it (with no closing
brace) is tolerated; but trailing commentary that does contain a closing
brace extends the decoded region past the JSON object (see the
counterexample), unlike the first-balanced-region extraction the claim
describes. -/
theorem extractJson_greedy (p j s : List Char)
    (hp : '\x7b' ∉ p) (hs : '\x7d' ∉ s)
    (hj1 : j.head? = some '\x7b') (hj2 : j.getLast? = some '\x7d') :
    extractJsonRegion (p ++ j ++ s) = some j := by
  obtain ⟨jt, rfl⟩ : ∃ t, j = '\x7b' :: t := by
    cases j with
    | nil => simp at hj1
    | cons a t =>
      simp only [List.head?_cons, Option.some_inj] at hj1
      exact ⟨t, by rw [hj1]⟩
  unfold extractJsonRegion
  have h1 : ((p ++ '\x7b' :: jt) ++ s).dropWhile (fun c => !(c = '\x7b')) =
      '\x7b' :: (jt ++ s) := by
    rw [List.append_assoc]
    rw [dropWhile_append_all p _ (fun x hx => by
      simp only [Bool.not_eq_true']
      exact decide_eq_false (fun hh => hp (hh ▸ hx)))]
    simp [List.dropWhile_cons]
  rw [h1]
  have h2 : ('\x7b' :: (jt ++ s)).reverse = s.reverse ++ ('\x7b' :: jt).reverse := by
    simp
  rw [h2]
  have h3 : (s.reverse ++ ('\x7b' :: jt).reverse).dropWhile (fun c => !(c = '\x7d')) =
      ('\x7b' :: jt).reverse.dropWhile (fun c => !(c = '\x7d')) := by
    refine dropWhile_append_all _ _ (fun x hx => ?_)
    simp only [Bool.not_eq_true']
    exact decide_eq_false (fun hh => hs (hh ▸ (List.mem_reverse.mp hx)))
  rw [h3]
  have h4 : ('\x7b' :: jt).reverse.head? = some '\x7d' := by
    rw [List.head?_reverse]
    exact hj2
  obtain ⟨rt, hrt⟩ : ∃ rt, ('\x7b' :: jt).reverse = '\x7d' :: rt := by
    cases hr : ('\x7b' :: jt).reverse with
    | nil => rw [hr] at h4; simp at h4
    | cons r0 rts =>
      rw [hr] at h4
      simp only [List.head?_cons, Option.some_inj] at h4
      exact ⟨rts, by rw [h4]⟩
  have key : ∀ (rts : List Char),
      (match List.dropWhile (fun c => !(c = '\x7d')) ('\x7d' :: rts) with
       | [] => none
       | r => some r.reverse) = some (('\x7d' :: rts).reverse) := by
    intro rts
    simp [List.dropWhile_cons]
  rw [hrt, key rt, ← hrt, List.reverse_reverse]

/-- Witness for C5: with brace-free commentary around it, the JSON object is
extracted exactly. -/
theorem extractJson_greedy_witness :
    ('\x7b' ∉ "pre ".data) ∧ ('\x7d' ∉ " post".data) ∧
    extractJsonRegion ("pre ".data ++ "\x7b\"a\": 1\x7d".data ++ " post".data) =
      some "\x7b\"a\": 1\x7d".data := by
  refine ⟨by decide, by decide, ?_⟩
  exact extractJson_greedy "pre ".data "\x7b\"a\": 1\x7d".data " post".data
    (by decide) (by decide) (by decide) (by decide)

/-- Counterexample for C5 as stated: on a response whose trailing commentary
contains a closing brace, the greedy extraction takes the region up to that
last brace, which differs from the first balanced region, fails to decode,
and sends the parser to the fallback — the trailing brace does change which
region is decoded. -/
theorem extractJson_greedy_cex :
    extractJson "\x7b\"a\": 1\x7d end\x7d" = some "\x7b\"a\": 1\x7d end\x7d" ∧
    specFirstBalanced "\x7b\"a\": 1\x7d end\x7d" = some "\x7b\"a\": 1\x7d" ∧
    extractJson "\x7b\"a\": 1\x7d end\x7d" ≠ specFirstBalanced "\x7b\"a\": 1\x7d end\x7d" ∧
    jsonDecode "\x7b\"a\": 1\x7d end\x7d" = none ∧
    jsonDecode "\x7b\"a\": 1\x7d" = some (.obj [("a", .num 1)]) ∧
    parseAITry "\x7b\"a\": 1\x7d end\x7d" "t" defaultOpts 0 = .error () ∧
    generatePlan (some "\x7b\"a\": 1\x7d end\x7d") "t" defaultOpts 0 =
      createFallbackPlan "t" defaultOpts 0 := by
  exact ⟨rfl, rfl, by decide, rfl, rfl, rfl, rfl⟩

/-- Membership through the insertion step of the stable sort. -/
theorem mem_insertByCreated (p q : ProjectPlan) (l : List ProjectPlan) :
    q ∈ insertByCreated p l ↔ q = p ∨ q ∈ l := by
  induction l with
  | nil => simp [insertByCreated]
  | cons x rest ih =>
    unfold insertByCreated
    split
    · simp only [List.mem_cons, ih]
      tauto
    · simp only [List.mem_cons]

/-- Sorting by creation date preserves membership. -/
theorem mem_sortByCreatedDesc (q : ProjectPlan) (l : List ProjectPlan) :
    q ∈ sortByCreatedDesc l ↔ q ∈ l := by
  induction l with
  | nil => simp [sortByCreatedDesc]
  | cons x rest ih =>
    unfold sortByCreatedDesc
    rw [mem_insertByCreated, ih, List.mem_cons]

/-- C8 (amended) — `findByTitle(term)` is case-insensitive: a plan is in the
result iff it is stored and its lowercased title contains the lowercased
term, or the lowercased term contains the plan title's first
SPACE-delimited token (`split(' ')[0]`, the space character only — not
general whitespace as the claim says); the "todo" scenario over the two
scenario plans returns exactly the todo plan. -/
theorem findPlansByTitle_spec :
    (∀ (st : StoreState) (term : String) (p : ProjectPlan),
      p ∈ findPlansByTitle st term ↔
        p ∈ st.plans.map Prod.snd ∧
        (strIncludes (lowerStr p.title) (lowerStr term) ||
          strIncludes (lowerStr term) (firstSpaceTok (lowerStr p.title))) = true) ∧
    findPlansByTitle twoPlanStore "todo" = [todoPlan] := by
  constructor
  · intro st term p
    unfold findPlansByTitle listPlans
    rw [List.mem_filter, mem_sortByCreatedDesc]
    exact Iff.rfl
  · rfl

/-- Counterexample for C8 as stated: a stored plan titled with a tab between
the words matches under the claim's whitespace-delimited-token reading but
is NOT returned by the implementation, which splits on the space character
only. -/
theorem findPlansByTitle_whitespace_cex :
    specTitleMatches tabTitlePlan.title "build todo" = true ∧
    titleMatches tabTitlePlan.title "build todo" = false ∧
    tabTitlePlan ∈ listPlans tabStore ∧
    findPlansByTitle tabStore "build todo" = [] := by
  refine ⟨rfl, rfl, ?_, rfl⟩
  have h : listPlans tabStore = [tabTitlePlan] := rfl
  rw [h]
  exact List.mem_singleton_self _
